import Mathlib

/-! MiniWoB++ : the jQuery-UI id patch and the episode viewer.

A shallow embedding of

* `miniwob/html/core/jquery-ui-hacks.js` (the deterministic `uniqueId` /
  `resetUniqueId` replacement), and
* `viewer/main.js` (the episode lister, the click and response handlers and the
  canvas drawing routines `drawState`, `drawDOM`, `drawAction`),

followed by the properties stated about them.

Conventions of the embedding:

* a DOM element of the id patch is named by a reference (`Element`), and the
  part of the page a routine touches is passed in and out explicitly;
* `undefined` and `null` are `none`;
* a JavaScript number that holds a count or a code is a `Nat` (such numbers are
  exact below 2^53); a number that arrives in a JSON document is a rational
  (`JSNumber`), every finite double being one;
* a canvas context is its attributes together with the list of painting
  operations performed through it so far.
-/

namespace MiniWob

/-! ## `jquery-ui-hacks.js` -/

namespace Hacks

/-- A reference to a DOM element (its identity, not its content). -/
abbrev Element := Nat

/-- The state the patch reads and writes: the closure variable `uuid` (a count)
and the `id` property of every element (`""` when the element has no id). -/
structure Page where
  uuid : Nat
  id : Element → String

/-- The function `$.resetUniqueId`: `uuid = 0`. -/
def resetUniqueId (p : Page) : Page :=
  { p with uuid := 0 }

/-- The callback `uniqueId` hands to `each`, run with `this = e`:
`if (!this.id) { this.id = "ui-id-" + ( ++uuid ); }`. -/
def assignId (p : Page) (e : Element) : Page :=
  if p.id e = "" then
    { uuid := p.uuid + 1
      id := fun x => if x = e then "ui-id-" ++ Nat.repr (p.uuid + 1) else p.id x }
  else p

/-- The method `$.fn.uniqueId` on the collection `coll`: `this.each` visits the
members in order (the call returns its receiver). -/
def uniqueId (coll : List Element) (p : Page) : Page :=
  coll.foldl assignId p

/-- One call of the patch's public interface. -/
inductive Call where
  | uniqueId (coll : List Element)
  | resetUniqueId

/-- Effect of one call. -/
def Call.apply (p : Page) : Call → Page
  | .uniqueId coll => Hacks.uniqueId coll p
  | .resetUniqueId => Hacks.resetUniqueId p

/-- Effect of a history of calls, oldest first. -/
def run (p : Page) (history : List Call) : Page :=
  history.foldl Call.apply p

/-- The members of a collection without repetition, each at its first
occurrence. -/
def distinct : List Element → List Element
  | [] => []
  | e :: es => e :: (distinct es).filter (fun x => decide (x ≠ e))

/-- The elements of `coll` that have no id in `p`, in collection order. -/
def idless (p : Page) (coll : List Element) : List Element :=
  distinct (coll.filter (fun e => decide (p.id e = "")))

/-- A page on which no element has an id. -/
def blank (uuid : Nat) : Page :=
  { uuid := uuid, id := fun _ => "" }

/-- Value of a string of decimal digits (used to read back `Nat.repr`). -/
def decimalValue (l : List Char) : Nat :=
  l.foldl (fun a c => a * 10 + (c.toNat - 48)) 0

end Hacks

/-! ## `viewer/main.js` -/

namespace Main

/-- A JavaScript number received in a JSON document. -/
abbrev JSNumber := ℚ

/-- The function `Math.round`: the nearest integer, a tie going up (taken in
exact arithmetic). -/
def mathRound (x : JSNumber) : JSNumber :=
  (⌊x + 1 / 2⌋ : ℤ)

/-- Truthiness of an optional string: `undefined` and `""` are falsy. -/
def truthy : Option String → Bool
  | none => false
  | some s => s != ""

/-- The method `String.prototype.split` with a one-character separator, on the
characters of the string. -/
def splitChars (sep : Char) : List Char → List (List Char)
  | [] => [[]]
  | c :: cs =>
    if c = sep then [] :: splitChars sep cs
    else
      match splitChars sep cs with
      | [] => [[c]]
      | t :: ts => (c :: t) :: ts

/-- The call `x.split(sep)` for a one-character separator. -/
def split (x : String) (sep : Char) : List String :=
  (splitChars sep x.data).map String.mk

/-- Whether `pat` occurs in `s` as a contiguous substring; with `pat` the
characters of `flight.` this is `/flight\..*/.test(s)`. -/
def containsSubstring (pat s : List Char) : Bool :=
  s.tails.any (fun t => pat.isPrefixOf t)

/-! ### Data received from the server -/

/-- A recorded DOM node. -/
structure DOMNode where
  tag : String
  left : JSNumber
  top : JSNumber
  width : JSNumber
  height : JSNumber
  text : Option String
  value : Option String
  focused : Bool
  recordingTarget : Bool
  children : List DOMNode

/-- A recorded action. A mouse action carries `x` and `y` and possibly `cx` and
`cy`; a keyboard action carries `keyCode` and `charCode`. -/
structure Action where
  type : String
  timing : Nat
  x : JSNumber
  y : JSNumber
  cx : Option JSNumber
  cy : Option JSNumber
  keyCode : Option Nat
  charCode : Option Nat

/-- A recorded state. -/
structure State where
  time : JSNumber
  action : Option Action
  dom : DOMNode
  image : Option String

/-- A recorded episode; `fields` holds the text `JSON.stringify` gives for the
`fields` value, when there is one. -/
structure Episode where
  taskName : String
  reward : JSNumber
  rawReward : JSNumber
  utterance : String
  fields : Option String
  states : List State

/-- The answer to `GET /view`. -/
structure ViewData where
  filename : String
  episode : Episode

/-! ### The page -/

/-- An `li` of the file column: the argument its `text` was called with, its
`filename` datum and whether it has the class `selected`. -/
structure Li where
  text : Option String
  filename : String
  selected : Bool
deriving DecidableEq

/-- A child of `#file-column`. -/
inductive ColumnNode where
  | h1 (text : Option String)
  | ul (items : List Li)
deriving DecidableEq

/-- What `addToTable` is given as `value`. -/
inductive Cell where
  | str (s : String)
  | num (n : JSNumber)
  | button (label : String)
deriving DecidableEq

/-- A table row made by `addToTable`; `raw` tells whether the value was
appended as markup rather than set as text. -/
structure Row where
  key : String
  value : Cell
  raw : Bool
deriving DecidableEq

/-- An angle in radians, kept as a rational multiple of `Math.PI`. -/
structure Angle where
  overPi : JSNumber
deriving DecidableEq

/-- An arc added to the current path by `ctx.arc`. -/
structure Arc where
  x : JSNumber
  y : JSNumber
  radius : JSNumber
  startAngle : Angle
  endAngle : Angle
deriving DecidableEq

/-- A painting operation, with the styles in force when it was performed. -/
inductive Op where
  | fillRect (fillStyle : String) (x y w h : JSNumber)
  | strokeRect (strokeStyle : String) (x y w h : JSNumber)
  | fillText (fillStyle textBaseline text : String) (x y : JSNumber)
  | fill (fillStyle : String) (path : List Arc)
deriving DecidableEq

/-- A 2D canvas context: its attributes, its current path, and what has been
painted through it, oldest first. -/
structure Ctx where
  fillStyle : String
  strokeStyle : String
  textBaseline : String
  scaleX : JSNumber
  scaleY : JSNumber
  path : List Arc
  ops : List Op
deriving DecidableEq

/-- The context of a fresh canvas. -/
def Ctx.fresh : Ctx :=
  { fillStyle := "#000000", strokeStyle := "#000000", textBaseline := "alphabetic",
    scaleX := 1, scaleY := 1, path := [], ops := [] }

/-- The call `ctx.scale(sx, sy)`. -/
def Ctx.scale (ctx : Ctx) (sx sy : JSNumber) : Ctx :=
  { ctx with scaleX := ctx.scaleX * sx, scaleY := ctx.scaleY * sy }

/-- The call `ctx.fillRect(x, y, w, h)`. -/
def Ctx.fillRect (ctx : Ctx) (x y w h : JSNumber) : Ctx :=
  { ctx with ops := ctx.ops ++ [Op.fillRect ctx.fillStyle x y w h] }

/-- The call `ctx.strokeRect(x, y, w, h)`. -/
def Ctx.strokeRect (ctx : Ctx) (x y w h : JSNumber) : Ctx :=
  { ctx with ops := ctx.ops ++ [Op.strokeRect ctx.strokeStyle x y w h] }

/-- The call `ctx.fillText(text, x, y)`. -/
def Ctx.fillText (ctx : Ctx) (text : String) (x y : JSNumber) : Ctx :=
  { ctx with ops := ctx.ops ++ [Op.fillText ctx.fillStyle ctx.textBaseline text x y] }

/-- The call `ctx.beginPath()`. -/
def Ctx.beginPath (ctx : Ctx) : Ctx :=
  { ctx with path := [] }

/-- The call `ctx.arc(x, y, radius, startAngle, endAngle)`. -/
def Ctx.arc (ctx : Ctx) (x y radius : JSNumber) (startAngle endAngle : Angle) : Ctx :=
  { ctx with path := ctx.path ++ [{ x := x, y := y, radius := radius,
                                    startAngle := startAngle, endAngle := endAngle }] }

/-- The call `ctx.fill()`: paints the current path in the current fill style. -/
def Ctx.fill (ctx : Ctx) : Ctx :=
  { ctx with ops := ctx.ops ++ [Op.fill ctx.fillStyle ctx.path] }

/-- The `config` object of `drawState`. -/
structure Config where
  width : Nat
  height : Nat
  scale : JSNumber
deriving DecidableEq

/-- A `canvas` element with the context drawn through. -/
structure Canvas where
  width : Nat
  height : Nat
  ctx : Ctx
deriving DecidableEq

/-- The `div.state-wrapper` built by `drawState`: its metadata table, its
canvas, and the `src` of the screenshot `img` when there is one. -/
structure StateBlock where
  table : List Row
  canvas : Canvas
  image : Option String
deriving DecidableEq

/-- The display column: the tables inside `#display-metadata`, the class name
of `#display-metadata`, the children of `#display-episode` and its scroll
offset. -/
structure Display where
  metadata : List (List Row)
  className : String
  episode : List StateBlock
  scrollTop : JSNumber
deriving DecidableEq

/-- The viewer: `#file-column`, the variable `currentFile`, the display column,
and the file names of the `/view` requests issued so far. -/
structure Viewer where
  fileColumn : List ColumnNode
  currentFile : Option String
  display : Display
  requests : List String
deriving DecidableEq

/-! ### Helper functions -/

/-- The function `addToTable(table, key, value, raw)`: appends one row. -/
def addToTable (table : List Row) (key : String) (value : Cell) (raw : Bool) : List Row :=
  table ++ [{ key := key, value := value, raw := raw }]

mutual
/-- The function `drawDOM(data, ctx)`: paints the node, then its children in
order, and returns the recording target (or `null`) with the context. -/
def drawDOM (data : DOMNode) (ctx : Ctx) : Option DOMNode × Ctx :=
  match data with
  | ⟨tag, left, top, width, height, text, value, focused, recordingTarget, children⟩ =>
    let ctx := { ctx with fillStyle := if recordingTarget then "#DDF" else "white" }
    let ctx := ctx.fillRect left top width height
    let ctx := { ctx with strokeStyle := if focused then "red" else "black" }
    let ctx := ctx.strokeRect left top width height
    let ctx :=
      if truthy text then
        let ctx := { ctx with fillStyle := if tag = "t" then "lightgray" else "black" }
        let ctx := { ctx with textBaseline := "top" }
        ctx.fillText (text.getD "") left top
      else ctx
    let ctx :=
      if truthy value then
        let ctx := { ctx with fillStyle := "green" }
        let ctx := { ctx with textBaseline := "top" }
        ctx.fillText (value.getD "") left top
      else ctx
    drawChildren children ctx (if recordingTarget then some data else none)
/-- The loop `data.children.forEach(...)` of `drawDOM`, threading the context
and the variable `recordingTarget`. -/
def drawChildren (children : List DOMNode) (ctx : Ctx) (recordingTarget : Option DOMNode) :
    Option DOMNode × Ctx :=
  match children with
  | [] => (recordingTarget, ctx)
  | child :: rest =>
    let r := drawDOM child ctx
    -- `recordingTarget = recordingTarget || childIsRecordingTarget`
    drawChildren rest r.2 (recordingTarget.orElse (fun _ => r.1))
end

/-- The object `{'click': 'blue', 'dblclick': 'orange', 'mousedown': 'green',
'mouseup': 'red'}`. -/
def mouseColors : List (String × String) :=
  [("click", "blue"), ("dblclick", "orange"), ("mousedown", "green"), ("mouseup", "red")]

/-- The object `{'keypress': 'blue', 'keydown': 'green', 'keyup': 'red'}`. -/
def keyColors : List (String × String) :=
  [("keypress", "blue"), ("keydown", "green"), ("keyup", "red")]

/-- The assignment `ctx.fillStyle = table[t]` (assigning `undefined` leaves the
style as it is). -/
def Ctx.setFillStyleFrom (ctx : Ctx) (table : List (String × String)) (t : String) : Ctx :=
  match table.lookup t with
  | some color => { ctx with fillStyle := color }
  | none => ctx

/-- String form of an optional key code in a concatenation. -/
def codeText : Option Nat → String
  | none => "undefined"
  | some n => Nat.repr n

/-- The function `drawAction(action, ctx)`. -/
def drawAction (action : Action) (ctx : Ctx) : Ctx :=
  let t := action.type
  if t = "click" ∨ t = "dblclick" ∨ t = "mousedown" ∨ t = "mouseup" then
    let ctx := ctx.beginPath
    let ctx := ctx.arc
      (match action.cx with | some cx => cx | none => action.x)
      (match action.cy with | some cy => cy | none => action.y) 5 ⟨0⟩ ⟨2⟩
    let ctx := ctx.setFillStyleFrom mouseColors t
    ctx.fill
  else if t = "keypress" ∨ t = "keydown" ∨ t = "keyup" then
    let ctx := ctx.setFillStyleFrom keyColors t
    let ctx := { ctx with textBaseline := "top" }
    ctx.fillText (t ++ ": key=" ++ codeText action.keyCode ++ " char=" ++ codeText action.charCode)
      0 0
  else if t = "scroll" then
    ctx
  else ctx

/-- The function `drawState(data, config)`. The click handler of the `DUMP`
button only logs and is left out. -/
def drawState (data : State) (config : Option Config) : StateBlock :=
  let config : Config := config.getD { width := 241, height := 316, scale := 3 / 2 }
  let metadataTable : List Row := []
  let metadataTable := addToTable metadataTable "time"
    (.num (mathRound (data.time / 10) / 100)) false
  let metadataTable := addToTable metadataTable "action"
    (match data.action with | some a => .str a.type | none => .str "n/a") false
  let metadataTable := addToTable metadataTable "timing"
    (match data.action with
      | some a =>
        if a.timing = 1 then .str "BEFORE"
        else if a.timing = 3 then .str "AFTER" else .num a.timing
      | none => .str "n/a") false
  let ctx := Ctx.fresh
  let ctx := ctx.scale config.scale config.scale
  let r := drawDOM data.dom ctx
  let ctx := r.2
  let metadataTable := addToTable metadataTable "target"
    (match r.1 with | some recordingTarget => .str recordingTarget.tag | none => .str "(none)")
    false
  let metadataTable := addToTable metadataTable "" (.button "DUMP") true
  let ctx := match data.action with | some a => drawAction a ctx | none => ctx
  { table := metadataTable
    canvas := { width := config.width, height := config.height, ctx := ctx }
    image := if truthy data.image then data.image else none }

/-! ### The episode lister -/

/-- The variables of the `/list` callback, with `#file-column`: `list` is the
position in `#file-column` of the `ul` the variable refers to. -/
structure ListerVars where
  column : List ColumnNode
  list : Option Nat
  taskName : Option String
deriving DecidableEq

/-- The call `li.appendTo(list)` where `list` is the child of the column at
position `i`. -/
def appendToList (li : Li) : List ColumnNode → Nat → List ColumnNode
  | [], _ => []
  | .ul items :: rest, 0 => .ul (items ++ [li]) :: rest
  | node :: rest, 0 => node :: rest
  | node :: rest, i + 1 => node :: appendToList li rest i

/-- The body of `data.filenames.forEach(function (x) {...})`. -/
def listerStep (v : ListerVars) (x : String) : ListerVars :=
  let tokens := split x '_'
  let v : ListerVars :=
    if tokens[0]? ≠ v.taskName then
      { column := v.column ++ [.h1 tokens[0]?, .ul []]
        taskName := tokens[0]?
        list := some (v.column.length + 1) }
    else v
  let li : Li := { text := tokens[1]?, filename := x, selected := false }
  match v.list with
  | some i => { v with column := appendToList li v.column i }
  | none => v    -- appending to no list adds nothing

/-- The `/list` callback on `data.filenames`, starting from the given content
of `#file-column`; the result is the new content. -/
def listCallback (column : List ColumnNode) (filenames : List String) : List ColumnNode :=
  (filenames.foldl listerStep { column := column, list := none, taskName := none }).column

/-! ### Selecting a file and receiving an episode -/

/-- The `li` at position `j` of the child `i` of the column. -/
def liAt (column : List ColumnNode) (i j : Nat) : Option Li :=
  match column[i]? with
  | some (.ul items) => items[j]?
  | _ => none

/-- The call `$('#file-column li').removeClass('selected')`. -/
def removeSelected (column : List ColumnNode) : List ColumnNode :=
  column.map fun
    | .ul items => .ul (items.map fun li => { li with selected := false })
    | node => node

/-- The call `$(target).addClass('selected')` for the `li` at position `j` of child `i`. -/
def addSelected (column : List ColumnNode) (i j : Nat) : List ColumnNode :=
  column.modify (fun
    | .ul items => .ul (items.modify (fun li => { li with selected := true }) j)
    | node => node) i

/-- The click handler on the `li` at position `j` of child `i` of the column
(nothing happens when there is no such `li`). -/
def click (v : Viewer) (i j : Nat) : Viewer :=
  match liAt v.fileColumn i j with
  | none => v
  | some target =>
    { v with
      fileColumn := addSelected (removeSelected v.fileColumn) i j
      currentFile := some target.filename
      requests := v.requests ++ [target.filename] }

/-- The callback of the `/view` request, run when the answer `data` arrives.
With no state in the episode, `episode.states[0].image` throws and what was
done before stays done. -/
def viewCallback (v : Viewer) (data : ViewData) : Viewer :=
  if some data.filename ≠ v.currentFile then v    -- Stale
  else
    let metadataTable : List Row := []
    let metadataTable := addToTable metadataTable "filename" (.str data.filename) false
    let episode := data.episode
    let metadataTable := addToTable metadataTable "task" (.str episode.taskName) false
    let config : Option Config :=
      if containsSubstring "flight.".data episode.taskName.data then
        some { width := 376, height := 668, scale := 1 }
      else none
    let metadataTable := addToTable metadataTable "reward"
      (.num (mathRound (episode.reward * 100) / 100)) false
    let metadataTable := addToTable metadataTable "raw reward" (.num episode.rawReward) false
    let className := if episode.rawReward > 0 then "success" else "fail"
    let metadataTable := addToTable metadataTable "utterance" (.str episode.utterance) false
    let metadataTable :=
      match episode.fields with
      | some fields => addToTable metadataTable "fields" (.str fields) false
      | none => metadataTable
    match episode.states with
    | [] =>
      { v with display := { v.display with metadata := [metadataTable], className := className } }
    | state0 :: _ =>
      let metadataTable :=
        if truthy state0.image then
          addToTable metadataTable "" (.str "<b>Images available! Hold Z to view.</b>") true
        else metadataTable
      { v with
        display :=
          { metadata := [metadataTable]
            className := className
            episode := episode.states.map (fun state => drawState state config)
            scrollTop := 0 } }

/-! ### Notions used to state the properties -/

mutual
/-- The nodes of a tree in pre-order: a node, then its children's subtrees from
left to right. -/
def preorder (data : DOMNode) : List DOMNode :=
  match data with
  | ⟨_, _, _, _, _, _, _, _, _, children⟩ => data :: preorderAll children
/-- The nodes of a list of trees, tree after tree, each in pre-order. -/
def preorderAll (trees : List DOMNode) : List DOMNode :=
  match trees with
  | [] => []
  | tree :: rest => preorder tree ++ preorderAll rest
end

/-- What `drawDOM` paints for one node, its children left aside. -/
def nodeOps (n : DOMNode) : List Op :=
  [Op.fillRect (if n.recordingTarget then "#DDF" else "white") n.left n.top n.width n.height,
   Op.strokeRect (if n.focused then "red" else "black") n.left n.top n.width n.height]
  ++ (if truthy n.text then
        [Op.fillText (if n.tag = "t" then "lightgray" else "black") "top" (n.text.getD "")
          n.left n.top]
      else [])
  ++ (if truthy n.value then [Op.fillText "green" "top" (n.value.getD "") n.left n.top] else [])

/-- The operation is a `fillRect`. -/
def Op.isFillRect : Op → Bool
  | .fillRect _ _ _ _ _ => true
  | _ => false

/-- The full circle of radius 5 that marks a mouse action: centred at
`(cx, cy)`, with `x` standing in for a missing `cx` and `y` for a missing
`cy`. -/
def marker (action : Action) : Arc :=
  { x := action.cx.getD action.x, y := action.cy.getD action.y, radius := 5,
    startAngle := ⟨0⟩, endAngle := ⟨2⟩ }

/-- The rows of a table with the given key. -/
def rowsWithKey (table : List Row) (key : String) : List Row :=
  table.filter (fun r => r.key == key)

/-- The part of a file name before its first underscore (the whole name when
it has none). -/
def taskOf (x : String) : String :=
  String.mk (x.data.takeWhile (fun c => c != '_'))

/-- Two file names have the same task name. -/
def sameTask (x y : String) : Bool :=
  taskOf x == taskOf y

/-- The `li` made for a file name. -/
def liOf (x : String) : Li :=
  { text := (split x '_')[1]?, filename := x, selected := false }

/-- The heading and the list for a group of file names under a task name. -/
def renderGroup (group : String × List String) : List ColumnNode :=
  [.h1 (some group.1), .ul (group.2.map liOf)]

/-- The maximal runs of consecutive file names with the same task name. -/
def runs (filenames : List String) : List (List String) :=
  filenames.splitBy sameTask

/-- The heading and the list for a run of file names: the heading is the task
name of the first of them. -/
def renderRun (run : List String) : List ColumnNode :=
  [.h1 (run.head?.map taskOf), .ul (run.map liOf)]

/-- The task names of a list of file names, each once, in order of first
encounter. -/
def tasksOf : List String → List String
  | [] => []
  | x :: xs => taskOf x :: (tasksOf xs).filter (fun t => t != taskOf x)

/-- Grouping by task name: for each task name in order of first encounter, the
file names that have it, in input order. -/
def groupsByTask (filenames : List String) : List (String × List String) :=
  (tasksOf filenames).map fun t => (t, filenames.filter (fun x => taskOf x == t))

/-- The file names of one task name stand next to one another: once the file
names that follow `x` stop having the task name of `x`, it does not come
back. -/
def TasksContiguous : List String → Prop
  | [] => True
  | x :: xs => (∀ y ∈ xs.dropWhile (sameTask x), taskOf y ≠ taskOf x) ∧ TasksContiguous xs

/-- Contiguity of the task names can be checked. -/
def TasksContiguous.decidable : (l : List String) → Decidable (TasksContiguous l)
  | [] => isTrue trivial
  | x :: xs =>
    have : Decidable (TasksContiguous xs) := TasksContiguous.decidable xs
    (inferInstance :
      Decidable ((∀ y ∈ xs.dropWhile (sameTask x), taskOf y ≠ taskOf x) ∧ TasksContiguous xs))

instance : DecidablePred TasksContiguous := TasksContiguous.decidable

/-- The file names of the items of the lists of a column, in document order. -/
def itemFilenames (column : List ColumnNode) : List String :=
  column.flatMap fun
    | .ul items => items.map (fun li => li.filename)
    | .h1 _ => []

/-- The headings of a column, in document order. -/
def headings (column : List ColumnNode) : List (Option String) :=
  column.filterMap fun
    | .h1 t => some t
    | .ul _ => none

/-- The viewer before anything was selected or shown. -/
def Viewer.initial (column : List ColumnNode) : Viewer :=
  { fileColumn := column
    currentFile := none
    display := { metadata := [], className := "", episode := [], scrollTop := 0 }
    requests := [] }

/-! ### Sample data -/

/-- A node without text, value or children. -/
def sampleLeaf (tag : String) (recordingTarget : Bool) : DOMNode :=
  { tag := tag, left := 0, top := 0, width := 10, height := 10, text := none, value := none,
    focused := false, recordingTarget := recordingTarget, children := [] }

/-- A tree whose only recording target is the `button` two levels down. -/
def sampleTree : DOMNode :=
  { tag := "body", left := 0, top := 0, width := 160, height := 210, text := none, value := none,
    focused := false, recordingTarget := false
    children :=
      [ sampleLeaf "span" false,
        { tag := "div", left := 0, top := 50, width := 160, height := 100, text := none,
          value := none, focused := false, recordingTarget := false
          children := [sampleLeaf "button" true, sampleLeaf "input" false] } ] }

/-- A tree whose root and whose second child are both recording targets. -/
def sampleTreeTwoTargets : DOMNode :=
  { tag := "body", left := 0, top := 0, width := 160, height := 210, text := none, value := none,
    focused := false, recordingTarget := true
    children := [sampleLeaf "span" false, sampleLeaf "button" true] }

/-- A click with `cx = 10` and `cy = 20`. -/
def sampleClick : Action :=
  { type := "click", timing := 1, x := 1, y := 2, cx := some 10, cy := some 20,
    keyCode := none, charCode := none }

/-- A scroll action. -/
def sampleScroll : Action :=
  { type := "scroll", timing := 0, x := 0, y := 0, cx := none, cy := none,
    keyCode := none, charCode := none }

/-- The answer for `flight.A_1`: one state, reward 0.8, raw reward 1. -/
def sampleData : ViewData :=
  { filename := "flight.A_1"
    episode :=
      { taskName := "flight.A", reward := 4 / 5, rawReward := 1, utterance := "Book a flight",
        fields := none
        states :=
          [{ time := 1234, action := some sampleClick, dom := sampleTree, image := none }] } }

/-- The viewer once the index `flight.A_1`, `flight.A_2`, `book.B_1` is
listed. -/
def sampleViewer : Viewer :=
  Viewer.initial (listCallback [] ["flight.A_1", "flight.A_2", "book.B_1"])

end Main

end MiniWob

/-! ## Properties of the id patch -/

namespace MiniWob.Hacks

theorem decimalValue_append_singleton (l : List Char) (c : Char) :
    decimalValue (l ++ [c]) = decimalValue l * 10 + (c.toNat - 48) := by
  simp [decimalValue, List.foldl_append]

theorem digitChar_value (k : Nat) (h : k < 10) : (Nat.digitChar k).toNat - 48 = k := by
  interval_cases k <;> rfl

theorem toDigitsCore_value (fuel : Nat) : ∀ (n : Nat) (ds : List Char), n < fuel →
    ∃ pre, Nat.toDigitsCore 10 fuel n ds = pre ++ ds ∧ decimalValue pre = n := by
  induction fuel with
  | zero => intro n ds h; omega
  | succ fuel ih =>
    intro n ds h
    by_cases h0 : n / 10 = 0
    · refine ⟨[Nat.digitChar (n % 10)], ?_, ?_⟩
      · simp [Nat.toDigitsCore, h0]
      · have : decimalValue [Nat.digitChar (n % 10)] = (Nat.digitChar (n % 10)).toNat - 48 := by
          simp [decimalValue]
        rw [this, digitChar_value _ (Nat.mod_lt _ (by decide))]
        omega
    · obtain ⟨pre, hpre, hval⟩ := ih (n / 10) (Nat.digitChar (n % 10) :: ds) (by omega)
      refine ⟨pre ++ [Nat.digitChar (n % 10)], ?_, ?_⟩
      · simp [Nat.toDigitsCore, h0, hpre]
      · rw [decimalValue_append_singleton, hval, digitChar_value _ (Nat.mod_lt _ (by decide))]
        omega

theorem decimalValue_repr (n : Nat) : decimalValue (Nat.repr n).data = n := by
  obtain ⟨pre, hpre, hval⟩ := toDigitsCore_value (n + 1) n [] (Nat.lt_succ_self n)
  simp only [List.append_nil] at hpre
  simp only [Nat.repr, Nat.toDigits, List.asString, hpre, hval]

theorem repr_injective {a b : Nat} (h : Nat.repr a = Nat.repr b) : a = b := by
  have := congrArg (fun s => decimalValue s.data) h
  simpa [decimalValue_repr] using this

theorem uiId_injective {a b : Nat} (h : "ui-id-" ++ Nat.repr a = "ui-id-" ++ Nat.repr b) :
    a = b := by
  apply repr_injective
  have := congrArg String.data h
  simp only [String.data_append, List.append_cancel_left_eq] at this
  exact String.ext this

theorem uiId_ne_empty (a : Nat) : "ui-id-" ++ Nat.repr a ≠ "" := by
  intro h
  have := congrArg String.length h
  simp only [String.length_append] at this
  have h6 : "ui-id-".length = 6 := by decide
  have h0 : "".length = 0 := by decide
  omega

theorem mem_distinct {x : Element} : ∀ {l : List Element}, x ∈ distinct l ↔ x ∈ l
  | [] => by simp [distinct]
  | e :: es => by
    simp only [distinct, List.mem_cons, List.mem_filter, decide_eq_true_eq, mem_distinct (l := es)]
    constructor
    · rintro (h | ⟨h, -⟩)
      · exact Or.inl h
      · exact Or.inr h
    · rintro (h | h)
      · exact Or.inl h
      · by_cases hx : x = e
        · exact Or.inl hx
        · exact Or.inr ⟨h, hx⟩

theorem distinct_filter (q : Element → Bool) :
    ∀ l : List Element, distinct (l.filter q) = (distinct l).filter q
  | [] => by simp [distinct]
  | e :: es => by
    by_cases hq : q e = true
    · simp only [List.filter_cons_of_pos hq, distinct, distinct_filter q es, List.filter_filter]
      congr 1
      apply List.filter_congr
      intro x _
      exact Bool.and_comm _ _
    · simp only [List.filter_cons_of_neg hq, distinct, distinct_filter q es, List.filter_filter]
      apply List.filter_congr
      intro x _
      by_cases hx : x = e
      · subst hx; simp [hq]
      · simp [hx]

theorem uniqueId_cons (e : Element) (es : List Element) (p : Page) :
    uniqueId (e :: es) p = uniqueId es (assignId p e) := rfl

theorem uniqueId_append (c₁ c₂ : List Element) (p : Page) :
    uniqueId (c₁ ++ c₂) p = uniqueId c₂ (uniqueId c₁ p) := by
  simp [uniqueId, List.foldl_append]

theorem assignId_of_id {p : Page} {e : Element} (h : p.id e ≠ "") : assignId p e = p := by
  simp [assignId, h]

theorem idless_cons_of_id {p : Page} {e : Element} (es : List Element) (h : p.id e ≠ "") :
    idless p (e :: es) = idless p es := by
  simp [idless, h]

theorem idless_cons_of_no_id {p : Page} {e : Element} (es : List Element) (h : p.id e = "") :
    idless p (e :: es) = e :: idless (assignId p e) es := by
  have hfil : es.filter (fun x => decide ((assignId p e).id x = ""))
      = (es.filter (fun x => decide (p.id x = ""))).filter (fun x => decide (x ≠ e)) := by
    rw [List.filter_filter]
    apply List.filter_congr
    intro x _
    by_cases hx : x = e
    · subst hx; simp [assignId, h, uiId_ne_empty]
    · simp [assignId, h, hx]
  simp only [idless, hfil, distinct_filter, List.filter_cons, h, decide_True, if_true, distinct]

theorem not_mem_idless_assignId {p : Page} {e : Element} (es : List Element) (h : p.id e = "") :
    e ∉ idless (assignId p e) es := by
  intro hmem
  have := (List.mem_filter.mp (mem_distinct.mp hmem)).2
  simp [assignId, h, uiId_ne_empty] at this

theorem uniqueId_spec : ∀ (coll : List Element) (p : Page),
    (uniqueId coll p).uuid = p.uuid + (idless p coll).length ∧
    (∀ (i : Nat) (x : Element), (idless p coll)[i]? = some x →
      (uniqueId coll p).id x = "ui-id-" ++ Nat.repr (p.uuid + (i + 1))) ∧
    (∀ e, e ∉ idless p coll → (uniqueId coll p).id e = p.id e)
  | [], p => by simp [uniqueId, idless, distinct]
  | e :: es, p => by
    by_cases he : p.id e = ""
    · obtain ⟨h1, h2, h3⟩ := uniqueId_spec es (assignId p e)
      have hcons := idless_cons_of_no_id es he
      have huuid : (assignId p e).uuid = p.uuid + 1 := by simp [assignId, he]
      refine ⟨?_, ?_, ?_⟩
      · rw [uniqueId_cons, h1, hcons, huuid, List.length_cons]; omega
      · intro i x h
        rw [uniqueId_cons]
        rw [hcons] at h
        cases i with
        | zero =>
          simp only [List.getElem?_cons_zero, Option.some.injEq] at h
          subst h
          rw [h3 e (not_mem_idless_assignId es he)]
          simp [assignId, he]
        | succ j =>
          simp only [List.getElem?_cons_succ] at h
          rw [h2 j x h, huuid]
          congr 2; omega
      · intro x hx
        rw [hcons, List.mem_cons, not_or] at hx
        rw [uniqueId_cons, h3 x hx.2]
        simp [assignId, he, hx.1]
    · rw [uniqueId_cons, assignId_of_id he, idless_cons_of_id es he]
      exact uniqueId_spec es p

theorem nodup_distinct : ∀ l : List Element, (distinct l).Nodup
  | [] => by simp [distinct]
  | e :: es => by
    simp only [distinct, List.nodup_cons, List.mem_filter, decide_eq_true_eq, ne_eq,
      not_true_eq_false, and_false, not_false_eq_true, true_and]
    exact (nodup_distinct es).filter _

theorem run_uniqueId_calls (calls : List (List Element)) : ∀ p : Page,
    run p (calls.map Call.uniqueId) = uniqueId calls.flatten p := by
  induction calls with
  | nil => intro p; rfl
  | cons c cs ih =>
    intro p
    simp only [List.map_cons, List.flatten_cons, uniqueId_append]
    rw [← ih]
    rfl

theorem uniqueId_of_ids : ∀ (coll : List Element) (p : Page),
    (∀ e ∈ coll, p.id e ≠ "") → uniqueId coll p = p
  | [], _, _ => rfl
  | e :: es, p, h => by
    rw [uniqueId_cons, assignId_of_id (h e (List.mem_cons_self _ _))]
    exact uniqueId_of_ids es p (fun x hx => h x (List.mem_cons_of_mem _ hx))

theorem uniqueId_id_ne_empty (coll : List Element) (p : Page) (e : Element) (he : e ∈ coll) :
    (uniqueId coll p).id e ≠ "" := by
  obtain ⟨-, h2, h3⟩ := uniqueId_spec coll p
  by_cases hm : e ∈ idless p coll
  · obtain ⟨i, hi, hget⟩ := List.getElem_of_mem hm
    rw [h2 i e (by rw [List.getElem?_eq_getElem hi, hget])]
    exact uiId_ne_empty _
  · rw [h3 e hm]
    intro hempty
    exact hm (mem_distinct.mpr (List.mem_filter.mpr ⟨he, by simpa using hempty⟩))

/-- C4. Counter reset: whatever calls of `uniqueId` and `resetUniqueId` came
before, once `resetUniqueId` has run, the `k`-th element (counting from 1) that
the following `uniqueId` calls find without an id receives `"ui-id-"` followed
by the decimal form of `k`; the first three receive `ui-id-1`, `ui-id-2`,
`ui-id-3`. -/
theorem ids_after_reset (p : Page) (history : List Call) (calls : List (List Element)) :
    let p' := resetUniqueId (run p history)
    let q := run p' (calls.map Call.uniqueId)
    let fresh := idless p' calls.flatten
    (∀ (k : Nat) (h : k < fresh.length),
      q.id (fresh.get ⟨k, h⟩) = "ui-id-" ++ Nat.repr (k + 1)) ∧
    (∀ (e₁ e₂ e₃ : Element) (rest : List Element), fresh = e₁ :: e₂ :: e₃ :: rest →
      q.id e₁ = "ui-id-1" ∧ q.id e₂ = "ui-id-2" ∧ q.id e₃ = "ui-id-3") := by
  intro p' q fresh
  have hq : q = uniqueId calls.flatten p' := run_uniqueId_calls calls p'
  obtain ⟨-, h2, -⟩ := uniqueId_spec calls.flatten p'
  have h0 : p'.uuid = 0 := rfl
  have key : ∀ (k : Nat) (x : Element), fresh[k]? = some x →
      q.id x = "ui-id-" ++ Nat.repr (k + 1) := by
    intro k x hx
    rw [hq, h2 k x hx, h0, Nat.zero_add]
  refine ⟨?_, ?_⟩
  · intro k h
    exact key k _ (by rw [List.get_eq_getElem, List.getElem?_eq_getElem h])
  · intro e₁ e₂ e₃ rest hfresh
    refine ⟨?_, ?_, ?_⟩
    · rw [key 0 e₁ (by rw [hfresh]; simp)]; decide
    · rw [key 1 e₂ (by rw [hfresh]; simp)]; decide
    · rw [key 2 e₃ (by rw [hfresh]; simp)]; decide

/-- Witness for C4: after an earlier call and a reset, two calls
over elements 3, 4, 3, 5 (none with an id) hand out `ui-id-1`, `ui-id-2`,
`ui-id-3`. -/
theorem ids_after_reset_witness :
    idless (resetUniqueId (run (blank 7) [Call.uniqueId [1, 2]])) [3, 4, 3, 5] = [3, 4, 5] ∧
    (run (resetUniqueId (run (blank 7) [Call.uniqueId [1, 2]]))
        ([[3, 4], [3, 5]].map Call.uniqueId)).id 3 = "ui-id-1" ∧
    (run (resetUniqueId (run (blank 7) [Call.uniqueId [1, 2]]))
        ([[3, 4], [3, 5]].map Call.uniqueId)).id 4 = "ui-id-2" ∧
    (run (resetUniqueId (run (blank 7) [Call.uniqueId [1, 2]]))
        ([[3, 4], [3, 5]].map Call.uniqueId)).id 5 = "ui-id-3" :=
  ⟨by decide,
    (ids_after_reset (blank 7) [Call.uniqueId [1, 2]] [[3, 4], [3, 5]]).2 3 4 5 [] (by decide)⟩

/-- C5. `uniqueId` leaves the id of an element that has one as it is, whatever
the collection and the counter; and running `uniqueId` on a collection a second
time changes neither an id nor the counter. -/
theorem uniqueId_idempotent (coll : List Element) (p : Page) :
    (∀ e : Element, p.id e ≠ "" → (uniqueId coll p).id e = p.id e) ∧
    uniqueId coll (uniqueId coll p) = uniqueId coll p := by
  refine ⟨?_, ?_⟩
  · intro e he
    apply (uniqueId_spec coll p).2.2 e
    intro hmem
    have := (List.mem_filter.mp (mem_distinct.mp hmem)).2
    exact he (by simpa using this)
  · exact uniqueId_of_ids coll _ (fun e he => uniqueId_id_ne_empty coll p e he)

/-- Witness for C5: element 1 got `ui-id-1` from a first
call; a call over 1 and 2 leaves that id alone. -/
theorem uniqueId_idempotent_witness :
    (uniqueId [1] (blank 0)).id 1 ≠ "" ∧
    (uniqueId [1, 2] (uniqueId [1] (blank 0))).id 1 = (uniqueId [1] (blank 0)).id 1 :=
  ⟨by decide, (uniqueId_idempotent [1, 2] (uniqueId [1] (blank 0))).1 1 (by decide)⟩

/-- C10. With no reset in between, a sequence of `uniqueId` calls (a single
call being the case of one collection) advances the counter by the number of
elements it meets without an id, the `i`-th of them in the order met (counting
from 1) receives `"ui-id-"` followed by the counter before the calls plus `i`,
the ids handed out are pairwise different, and no other id changes. Across a
reset an id can be handed out again. -/
theorem ids_between_resets (p : Page) (calls : List (List Element)) :
    let q := run p (calls.map Call.uniqueId)
    let fresh := idless p calls.flatten
    q.uuid = p.uuid + fresh.length ∧
    (∀ (i : Nat) (h : i < fresh.length),
      q.id (fresh.get ⟨i, h⟩) = "ui-id-" ++ Nat.repr (p.uuid + (i + 1))) ∧
    (∀ (i j : Nat) (hi : i < fresh.length) (hj : j < fresh.length), i ≠ j →
      q.id (fresh.get ⟨i, hi⟩) ≠ q.id (fresh.get ⟨j, hj⟩)) ∧
    (∀ e : Element, e ∉ fresh → q.id e = p.id e) ∧
    (∃ e₁ e₂ : Element, e₁ ≠ e₂ ∧
      (uniqueId [e₂] (resetUniqueId (uniqueId [e₁] (blank 0)))).id e₂
        = (uniqueId [e₁] (blank 0)).id e₁) := by
  intro q fresh
  have hq : q = uniqueId calls.flatten p := run_uniqueId_calls calls p
  obtain ⟨h1, h2, h3⟩ := uniqueId_spec calls.flatten p
  have key : ∀ (i : Nat) (h : i < fresh.length),
      q.id (fresh.get ⟨i, h⟩) = "ui-id-" ++ Nat.repr (p.uuid + (i + 1)) := by
    intro i h
    rw [hq]
    exact h2 i _ (by rw [List.get_eq_getElem, List.getElem?_eq_getElem h])
  refine ⟨by rw [hq]; exact h1, key, ?_, by rw [hq]; exact h3, ⟨1, 2, by decide, by decide⟩⟩
  intro i j hi hj hij heq
  rw [key i hi, key j hj] at heq
  have := uiId_injective heq
  omega

/-- Witness for C10: from counter 7, two calls over elements
3, 4 and 3, 5 advance the counter by three, and elements 3 and 5 receive
different ids. -/
theorem ids_between_resets_witness :
    idless (blank 7) [3, 4, 3, 5] = [3, 4, 5] ∧
    (run (blank 7) ([[3, 4], [3, 5]].map Call.uniqueId)).uuid = 10 ∧
    (run (blank 7) ([[3, 4], [3, 5]].map Call.uniqueId)).id 3
      ≠ (run (blank 7) ([[3, 4], [3, 5]].map Call.uniqueId)).id 5 :=
  ⟨by decide, (ids_between_resets (blank 7) [[3, 4], [3, 5]]).1,
    (ids_between_resets (blank 7) [[3, 4], [3, 5]]).2.2.1 0 2 (by decide) (by decide) (by decide)⟩

end MiniWob.Hacks

/-! ## Properties of the viewer -/

namespace MiniWob.Main

theorem preorder_eq (data : DOMNode) : preorder data = data :: preorderAll data.children := by
  cases data; simp [preorder]

/-- The context after `drawDOM` has painted the node itself: the operations of
the node were added. -/
theorem drawDOM_eq (data : DOMNode) (ctx : Ctx) :
    ∃ ctx', ctx'.ops = ctx.ops ++ nodeOps data ∧
      drawDOM data ctx
        = drawChildren data.children ctx' (if data.recordingTarget then some data else none) := by
  obtain ⟨tag, left, top, width, height, text, value, focused, recordingTarget, children⟩ := data
  rw [drawDOM]
  refine ⟨_, ?_, rfl⟩
  by_cases ht : truthy text = true <;> by_cases hv : truthy value = true <;>
    simp [ht, hv, nodeOps, Ctx.fillRect, Ctx.strokeRect, Ctx.fillText]

mutual
theorem drawDOM_spec : ∀ (data : DOMNode) (ctx : Ctx),
    (drawDOM data ctx).1 = (preorder data).find? (fun n => n.recordingTarget) ∧
    (drawDOM data ctx).2.ops = ctx.ops ++ (preorder data).flatMap nodeOps
  | ⟨tag, left, top, width, height, text, value, focused, recordingTarget, children⟩, ctx => by
    obtain ⟨ctx', hops, heq⟩ := drawDOM_eq
      ⟨tag, left, top, width, height, text, value, focused, recordingTarget, children⟩ ctx
    obtain ⟨h1, h2⟩ := drawChildren_spec children ctx'
      (if recordingTarget then
        some ⟨tag, left, top, width, height, text, value, focused, recordingTarget, children⟩
       else none)
    simp only at heq
    rw [heq, preorder_eq]
    refine ⟨?_, ?_⟩
    · rw [h1]
      cases recordingTarget <;> simp [List.find?_cons]
    · rw [h2, hops]
      simp
theorem drawChildren_spec : ∀ (children : List DOMNode) (ctx : Ctx) (target : Option DOMNode),
    (drawChildren children ctx target).1
      = target.orElse (fun _ => (preorderAll children).find? (fun n => n.recordingTarget)) ∧
    (drawChildren children ctx target).2.ops = ctx.ops ++ (preorderAll children).flatMap nodeOps
  | [], ctx, target => by
    cases target <;> simp [drawChildren, preorderAll]
  | child :: rest, ctx, target => by
    obtain ⟨h1, h2⟩ := drawDOM_spec child ctx
    obtain ⟨h3, h4⟩ := drawChildren_spec rest (drawDOM child ctx).2
      (target.orElse (fun _ => (drawDOM child ctx).1))
    rw [drawChildren]
    refine ⟨?_, ?_⟩
    · rw [h3, h1, preorderAll, List.find?_append]
      cases target <;> simp [Option.orElse, Option.or]
      cases List.find? (fun n => n.recordingTarget) (preorder child) <;> rfl
    · rw [h4, h2, preorderAll]
      simp
end

theorem splitChars_eq_cons (sep : Char) : ∀ l : List Char,
    ∃ ts, splitChars sep l = l.takeWhile (fun c => c != sep) :: ts
  | [] => ⟨[], rfl⟩
  | c :: cs => by
    obtain ⟨ts, hts⟩ := splitChars_eq_cons sep cs
    by_cases hc : c = sep
    · exact ⟨splitChars sep cs, by simp [splitChars, hc]⟩
    · exact ⟨ts, by simp [splitChars, hc, hts]⟩

theorem split_zero (x : String) : (split x '_')[0]? = some (taskOf x) := by
  obtain ⟨ts, hts⟩ := splitChars_eq_cons '_' x.data
  simp [split, hts, taskOf]

theorem appendToList_at (li : Li) (items : List Li) (post : List ColumnNode) :
    ∀ pre : List ColumnNode,
      appendToList li (pre ++ .ul items :: post) pre.length = pre ++ .ul (items ++ [li]) :: post
  | [] => by simp [appendToList]
  | node :: pre => by
    have ih := appendToList_at li items post pre
    cases node <;> simp [appendToList, ih]

/-- One step of the lister when the file name has the current task name. -/
theorem listerStep_same (pre : List ColumnNode) (items : List Li) (t x : String)
    (hx : taskOf x = t) :
    listerStep { column := pre ++ [.ul items], list := some pre.length, taskName := some t } x
      = { column := pre ++ [ColumnNode.ul (items ++ [liOf x])], list := some pre.length,
          taskName := some t } := by
  simp [listerStep, split_zero, hx, liOf, appendToList_at]

/-- One step of the lister when the file name has another task name than the
current one (or there is none yet). -/
theorem listerStep_new (column : List ColumnNode) (list : Option Nat) (taskName : Option String)
    (x : String) (hx : taskName ≠ some (taskOf x)) :
    listerStep { column := column, list := list, taskName := taskName } x
      = { column := (column ++ [ColumnNode.h1 (some (taskOf x))]) ++ [ColumnNode.ul [liOf x]],
          list := some (column ++ [ColumnNode.h1 (some (taskOf x))]).length,
          taskName := some (taskOf x) } := by
  have hx' : ¬ some (taskOf x) = taskName := fun h => hx h.symm
  have := appendToList_at (liOf x) [] [] (column ++ [ColumnNode.h1 (some (taskOf x))])
  simp only [List.length_append, List.length_singleton, List.append_assoc, List.singleton_append,
    List.nil_append, liOf] at this
  simp [listerStep, split_zero, hx', liOf, this]

theorem splitBy_loop_eq (t : String) : ∀ (l : List String) (b : String) (g : List String)
    (gs : List (List String)), taskOf b = t →
    List.splitBy.loop sameTask l b g gs
      = gs.reverse ++ ((b :: g).reverse ++ l.takeWhile (fun y => taskOf y == t))
          :: runs (l.dropWhile (fun y => taskOf y == t)) := by
  intro l
  induction l generalizing t with
  | nil => intro b g gs _; simp [List.splitBy.loop, runs]
  | cons a as ih =>
    intro b g gs hb
    by_cases ha : taskOf a = t
    · have hR : sameTask b a = true := by simp [sameTask, hb, ha]
      simp only [List.splitBy.loop, hR]
      rw [ih t a (b :: g) gs ha]
      simp [ha]
    · have hR : sameTask b a = false := by
        simp only [sameTask, hb, beq_eq_false_iff_ne, ne_eq]
        exact fun h => ha h.symm
      simp only [List.splitBy.loop, hR]
      rw [ih (taskOf a) a [] ((b :: g).reverse :: gs) rfl]
      have hrun : runs (a :: as) = (a :: as.takeWhile (fun y => taskOf y == taskOf a))
          :: runs (as.dropWhile (fun y => taskOf y == taskOf a)) := by
        have := ih (taskOf a) a [] [] rfl
        simpa [runs, List.splitBy] using this
      simp [ha, hrun]

theorem runs_cons (x : String) (xs : List String) :
    runs (x :: xs) = (x :: xs.takeWhile (fun y => taskOf y == taskOf x))
      :: runs (xs.dropWhile (fun y => taskOf y == taskOf x)) := by
  have := splitBy_loop_eq (taskOf x) xs x [] [] rfl
  simpa [runs, List.splitBy] using this

theorem lister_fold (xs : List String) : ∀ (pre : List ColumnNode) (items : List Li) (t : String),
    (xs.foldl listerStep
        { column := pre ++ [.ul items], list := some pre.length, taskName := some t }).column
      = pre ++ [.ul (items ++ (xs.takeWhile (fun y => taskOf y == t)).map liOf)]
          ++ (runs (xs.dropWhile (fun y => taskOf y == t))).flatMap renderRun := by
  induction xs with
  | nil => intro pre items t; simp [runs]
  | cons x xs ih =>
    intro pre items t
    by_cases hx : taskOf x = t
    · rw [List.foldl_cons, listerStep_same pre items t x hx, ih]
      simp [hx]
    · have hne : some t ≠ some (taskOf x) := by
        intro h; exact hx (Option.some.inj h).symm
      rw [List.foldl_cons, listerStep_new _ _ _ x hne, ih]
      simp [hx, runs_cons, renderRun]

theorem listCallback_eq_runs (column : List ColumnNode) (filenames : List String) :
    listCallback column filenames = column ++ (runs filenames).flatMap renderRun := by
  cases filenames with
  | nil => simp [listCallback, runs]
  | cons x xs =>
    have hne : (none : Option String) ≠ some (taskOf x) := by simp
    rw [listCallback, List.foldl_cons, listerStep_new _ _ _ x hne, lister_fold]
    simp [runs_cons, renderRun]

theorem sameTask_eq (x : String) : sameTask x = fun y => taskOf y == taskOf x := by
  funext y
  simp only [sameTask]
  exact Bool.beq_comm

theorem mem_tasksOf {t : String} : ∀ {l : List String}, t ∈ tasksOf l ↔ ∃ y ∈ l, taskOf y = t
  | [] => by simp [tasksOf]
  | x :: xs => by
    simp only [tasksOf, List.mem_cons, List.mem_filter, mem_tasksOf (l := xs), bne_iff_ne, ne_eq,
      exists_eq_or_imp]
    constructor
    · rintro (h | ⟨h, -⟩)
      · exact Or.inl h.symm
      · exact Or.inr h
    · rintro (h | h)
      · exact Or.inl h.symm
      · by_cases ht : t = taskOf x
        · exact Or.inl ht
        · exact Or.inr ⟨h, ht⟩

theorem tasksOf_filter (q : String → Bool) : ∀ l : List String,
    tasksOf (l.filter (fun x => q (taskOf x))) = (tasksOf l).filter q
  | [] => by simp [tasksOf]
  | x :: xs => by
    by_cases hq : q (taskOf x) = true
    · simp only [List.filter_cons, hq, if_true, tasksOf, tasksOf_filter q xs, List.filter_filter]
      congr 1
      apply List.filter_congr
      intro t _
      exact Bool.and_comm _ _
    · simp only [List.filter_cons, hq, tasksOf, Bool.false_eq_true, if_false,
        List.filter_filter]
      rw [tasksOf_filter q xs]
      apply List.filter_congr
      intro t _
      by_cases ht : t = taskOf x
      · subst ht; simp [hq]
      · simp [ht]

theorem tasksContiguous_dropWhile (q : String → Bool) : ∀ l : List String,
    TasksContiguous l → TasksContiguous (l.dropWhile q)
  | [], h => by simpa using h
  | x :: xs, h => by
    by_cases hq : q x = true
    · rw [List.dropWhile_cons_of_pos hq]
      exact tasksContiguous_dropWhile q xs h.2
    · rw [List.dropWhile_cons_of_neg hq]
      exact h

theorem groupsByTask_cons (x : String) (xs : List String)
    (h : ∀ y ∈ xs.dropWhile (sameTask x), taskOf y ≠ taskOf x) :
    groupsByTask (x :: xs)
      = (taskOf x, x :: xs.takeWhile (fun y => taskOf y == taskOf x))
          :: groupsByTask (xs.dropWhile (fun y => taskOf y == taskOf x)) := by
  rw [sameTask_eq] at h
  have hsplit := List.takeWhile_append_dropWhile (fun y => taskOf y == taskOf x) xs
  have htake : ∀ y ∈ xs.takeWhile (fun y => taskOf y == taskOf x), taskOf y = taskOf x := by
    intro y hy
    simpa using List.mem_takeWhile_imp hy
  have hxs_eq : xs.filter (fun y => taskOf y == taskOf x)
      = xs.takeWhile (fun y => taskOf y == taskOf x) := by
    conv_lhs => rw [← hsplit]
    rw [List.filter_append, List.filter_eq_self.mpr (by simpa using htake),
      List.filter_eq_nil_iff.mpr (by simpa using h), List.append_nil]
  have hxs_ne : xs.filter (fun y => (fun t => t != taskOf x) (taskOf y))
      = xs.dropWhile (fun y => taskOf y == taskOf x) := by
    conv_lhs => rw [← hsplit]
    rw [List.filter_append, List.filter_eq_nil_iff.mpr (by simpa using htake),
      List.filter_eq_self.mpr (by simpa using h), List.nil_append]
  have htasks : (tasksOf xs).filter (fun t => t != taskOf x)
      = tasksOf (xs.dropWhile (fun y => taskOf y == taskOf x)) := by
    rw [← tasksOf_filter, hxs_ne]
  simp only [groupsByTask, tasksOf, List.map_cons, htasks, List.filter_cons, beq_self_eq_true,
    if_true, hxs_eq]
  congr 1
  apply List.map_congr_left
  intro t ht
  obtain ⟨y, hy, hyt⟩ := mem_tasksOf.mp ht
  have htx : ¬ taskOf x = t := by
    intro hxt
    exact h y hy (hyt.trans hxt.symm)
  have hfil : xs.filter (fun y => taskOf y == t)
      = (xs.dropWhile (fun y => taskOf y == taskOf x)).filter (fun y => taskOf y == t) := by
    conv_lhs => rw [← hsplit]
    rw [List.filter_append, List.filter_eq_nil_iff.mpr, List.nil_append]
    intro z hz
    rw [beq_iff_eq, htake z hz]
    exact htx
  simp [htx, hfil]

theorem render_groups_eq_runs : ∀ (n : Nat) (filenames : List String), filenames.length ≤ n →
    TasksContiguous filenames →
    (groupsByTask filenames).flatMap renderGroup = (runs filenames).flatMap renderRun
  | _, [], _, _ => by simp [groupsByTask, tasksOf, runs]
  | 0, x :: xs, hlen, _ => by simp at hlen
  | n + 1, x :: xs, hlen, h => by
    have hdrop : (xs.dropWhile (fun y => taskOf y == taskOf x)).length ≤ n := by
      have := (List.dropWhile_sublist (fun y => taskOf y == taskOf x) (l := xs)).length_le
      simp only [List.length_cons] at hlen
      omega
    have ih := render_groups_eq_runs n _ hdrop (tasksContiguous_dropWhile _ xs h.2)
    rw [groupsByTask_cons x xs h.1, runs_cons, List.flatMap_cons, List.flatMap_cons, ih]
    simp [renderGroup, renderRun]

theorem click_display (v : Viewer) (i j : Nat) : (click v i j).display = v.display := by
  unfold click
  cases liAt v.fileColumn i j <;> rfl

theorem viewCallback_stale (v : Viewer) (data : ViewData)
    (h : some data.filename ≠ v.currentFile) : viewCallback v data = v := by
  simp [viewCallback, h]

theorem viewCallback_className (v : Viewer) (data : ViewData)
    (h : some data.filename = v.currentFile) :
    (viewCallback v data).display.className
      = if data.episode.rawReward > 0 then "success" else "fail" := by
  unfold viewCallback
  rw [if_neg (not_not.mpr h)]
  cases hs : data.episode.states <;> simp [hs]

theorem headings_appendToList (li : Li) : ∀ (column : List ColumnNode) (i : Nat),
    headings (appendToList li column i) = headings column
  | [], _ => rfl
  | .h1 t :: rest, 0 => rfl
  | .ul items :: rest, 0 => rfl
  | .h1 t :: rest, i + 1 => by
    simp [appendToList, headings, List.filterMap_cons]
    exact headings_appendToList li rest i
  | .ul items :: rest, i + 1 => by
    simp [appendToList, headings, List.filterMap_cons]
    exact headings_appendToList li rest i

theorem headings_render_runs (rs : List (List String)) :
    headings (rs.flatMap renderRun) = rs.map (fun r => r.head?.map taskOf) := by
  induction rs with
  | nil => rfl
  | cons r rs ih =>
    simp only [List.flatMap_cons, List.map_cons, ← ih]
    simp [headings, renderRun, List.filterMap_cons]

theorem itemFilenames_render_runs (rs : List (List String)) :
    itemFilenames (rs.flatMap renderRun) = rs.flatten := by
  induction rs with
  | nil => rfl
  | cons r rs ih =>
    simp only [itemFilenames] at ih
    simp [itemFilenames, renderRun, List.flatMap_cons, ih, liOf, Function.comp_def]

/-- C1. Staleness: a response whose `filename` is not the current file leaves
the display (metadata pane, class name, episode pane) as it was; so when X is
selected, then another file Y, a response tagged X that arrives afterwards does
not change the display. -/
theorem stale_response_keeps_display (v : Viewer) (data : ViewData) :
    (some data.filename ≠ v.currentFile → (viewCallback v data).display = v.display) ∧
    (∀ (i j i' j' : Nat) (x y : String),
      (click v i j).currentFile = some x →
      (click (click v i j) i' j').currentFile = some y →
      y ≠ x → data.filename = x →
      (viewCallback (click (click v i j) i' j') data).display
        = (click (click v i j) i' j').display) := by
  refine ⟨fun h => by rw [viewCallback_stale v data h], ?_⟩
  intro i j i' j' x y _ hy hyx hdata
  rw [viewCallback_stale]
  rw [hy, hdata]
  intro h
  exact hyx (Option.some.inj h).symm

/-- Witness for C1: `flight.A_1` is clicked, then
`book.B_1`, then the answer for `flight.A_1` arrives. -/
theorem stale_response_keeps_display_witness :
    (click sampleViewer 1 0).currentFile = some "flight.A_1" ∧
    (click (click sampleViewer 1 0) 3 0).currentFile = some "book.B_1" ∧
    (viewCallback (click (click sampleViewer 1 0) 3 0) sampleData).display
      = (click (click sampleViewer 1 0) 3 0).display :=
  ⟨by decide, by decide,
    (stale_response_keeps_display sampleViewer sampleData).2 1 0 3 0 "flight.A_1" "book.B_1"
      (by decide) (by decide) (by decide) (by decide)⟩

/-- C7. Reward styling: when a response is accepted, the class name of the
metadata block is `success` if the raw reward is positive and `fail` if it is
zero or negative; two accepted responses with the same raw reward get the same
class name, whatever their rewards. -/
theorem reward_styling (v : Viewer) (data : ViewData)
    (h : some data.filename = v.currentFile) :
    (data.episode.rawReward > 0 → (viewCallback v data).display.className = "success") ∧
    (data.episode.rawReward ≤ 0 → (viewCallback v data).display.className = "fail") ∧
    (∀ (v' : Viewer) (data' : ViewData), some data'.filename = v'.currentFile →
      data'.episode.rawReward = data.episode.rawReward →
      (viewCallback v' data').display.className = (viewCallback v data).display.className) := by
  refine ⟨?_, ?_, ?_⟩
  · intro hpos
    rw [viewCallback_className v data h, if_pos hpos]
  · intro hneg
    rw [viewCallback_className v data h, if_neg (not_lt.mpr hneg)]
  · intro v' data' h' hraw
    rw [viewCallback_className v data h, viewCallback_className v' data' h', hraw]

/-- Witness for C7: the answer for `flight.A_1`, with raw reward 1,
arrives while `flight.A_1` is selected. -/
theorem reward_styling_witness :
    some sampleData.filename = (click sampleViewer 1 0).currentFile ∧
    sampleData.episode.rawReward > 0 ∧
    (viewCallback (click sampleViewer 1 0) sampleData).display.className = "success" :=
  ⟨by decide, by simp [sampleData],
    (reward_styling (click sampleViewer 1 0) sampleData (by decide)).1 (by simp [sampleData])⟩

/-- C3. Recording-target propagation: when exactly one node of the tree has
`recordingTarget` set, `drawDOM` returns that node and the `target` row of the
state's table shows its tag; when no node has it set, `drawDOM` returns `null`
and the row shows `(none)`. -/
theorem recording_target_propagation (state : State) (config : Option Config) (ctx : Ctx) :
    (∀ n : DOMNode, (preorder state.dom).filter (fun m => m.recordingTarget) = [n] →
      (drawDOM state.dom ctx).1 = some n ∧
      rowsWithKey (drawState state config).table "target"
        = [{ key := "target", value := Cell.str n.tag, raw := false }]) ∧
    ((preorder state.dom).filter (fun m => m.recordingTarget) = [] →
      (drawDOM state.dom ctx).1 = none ∧
      rowsWithKey (drawState state config).table "target"
        = [{ key := "target", value := Cell.str "(none)", raw := false }]) := by
  have hfind : ∀ c : Ctx, (drawDOM state.dom c).1
      = ((preorder state.dom).filter (fun m => m.recordingTarget)).head? := by
    intro c
    rw [(drawDOM_spec state.dom c).1, List.filter_head?]
  refine ⟨?_, ?_⟩
  · intro n hn
    refine ⟨by rw [hfind, hn]; rfl, ?_⟩
    simp [drawState, addToTable, rowsWithKey, hfind, hn]
  · intro hn
    refine ⟨by rw [hfind, hn]; rfl, ?_⟩
    simp [drawState, addToTable, rowsWithKey, hfind, hn]

/-- Witness for C3: in `sampleTree` only the
`button` two levels down is the recording target, and the row shows
`button`. -/
theorem recording_target_propagation_witness :
    (preorder sampleTree).filter (fun m => m.recordingTarget) = [sampleLeaf "button" true] ∧
    rowsWithKey
        (drawState { time := 1234, action := none, dom := sampleTree, image := none } none).table
        "target"
      = [{ key := "target", value := Cell.str "button", raw := false }] :=
  ⟨rfl,
    ((recording_target_propagation
        { time := 1234, action := none, dom := sampleTree, image := none } none Ctx.fresh).1
      (sampleLeaf "button" true) rfl).2⟩

/-- C9. `drawDOM` returns the first node in pre-order whose `recordingTarget`
is set (`null` when there is none), so a flagged root is returned whatever its
descendants are; and it paints every node once, in pre-order, wherever the
target is: the operations added are those of the nodes in pre-order, one
`fillRect` per node. -/
theorem drawDOM_first_in_preorder (data : DOMNode) (ctx : Ctx) :
    (drawDOM data ctx).1 = (preorder data).find? (fun n => n.recordingTarget) ∧
    (data.recordingTarget = true → (drawDOM data ctx).1 = some data) ∧
    (drawDOM data ctx).2.ops = ctx.ops ++ (preorder data).flatMap nodeOps ∧
    ((drawDOM data ctx).2.ops.filter Op.isFillRect).length
      = (ctx.ops.filter Op.isFillRect).length + (preorder data).length := by
  obtain ⟨h1, h2⟩ := drawDOM_spec data ctx
  refine ⟨h1, ?_, h2, ?_⟩
  · intro hflag
    rw [h1, preorder_eq, List.find?_cons, hflag]
  · rw [h2, List.filter_append, List.length_append]
    congr 1
    generalize preorder data = l
    induction l with
    | nil => rfl
    | cons n l ih =>
      rw [List.flatMap_cons, List.filter_append, List.length_append, ih, List.length_cons]
      have : ((nodeOps n).filter Op.isFillRect).length = 1 := by
        by_cases ht : truthy n.text = true <;> by_cases hv : truthy n.value = true <;>
          simp [nodeOps, ht, hv, Op.isFillRect, List.filter_cons]
      omega

/-- Witness for C9: the flagged root of
`sampleTreeTwoTargets` is returned although a child is flagged too. -/
theorem drawDOM_first_in_preorder_witness :
    sampleTreeTwoTargets.recordingTarget = true ∧
    (drawDOM sampleTreeTwoTargets Ctx.fresh).1 = some sampleTreeTwoTargets :=
  ⟨rfl, (drawDOM_first_in_preorder sampleTreeTwoTargets Ctx.fresh).2.1 rfl⟩

/-- C6. Action overlay: for a `click`, `dblclick`, `mousedown` or `mouseup`
action, `drawAction` performs one painting operation, the fill of a single full
circle of radius 5 centred at `(cx, cy)` (`x` for a missing `cx`, `y` for a
missing `cy`), in blue, orange, green or red; for a `scroll` action it leaves
the context, its painting operations included, as it was. -/
theorem action_overlay (action : Action) (ctx : Ctx) :
    (action.type = "click" →
      (drawAction action ctx).ops = ctx.ops ++ [Op.fill "blue" [marker action]]) ∧
    (action.type = "dblclick" →
      (drawAction action ctx).ops = ctx.ops ++ [Op.fill "orange" [marker action]]) ∧
    (action.type = "mousedown" →
      (drawAction action ctx).ops = ctx.ops ++ [Op.fill "green" [marker action]]) ∧
    (action.type = "mouseup" →
      (drawAction action ctx).ops = ctx.ops ++ [Op.fill "red" [marker action]]) ∧
    (action.type = "scroll" → drawAction action ctx = ctx) := by
  have hm : (match action.cx with | some cx => cx | none => action.x)
      = action.cx.getD action.x := by
    cases action.cx <;> rfl
  have hm' : (match action.cy with | some cy => cy | none => action.y)
      = action.cy.getD action.y := by
    cases action.cy <;> rfl
  refine ⟨?_, ?_, ?_, ?_, ?_⟩ <;> intro h <;>
    simp [drawAction, h, hm, hm', marker, Ctx.beginPath, Ctx.arc, Ctx.fill, Ctx.setFillStyleFrom,
      mouseColors, List.lookup]

/-- Witness for C6: a click with `cx = 10`, `cy = 20` on a fresh
canvas paints one blue circle centred at (10, 20). -/
theorem action_overlay_witness :
    sampleClick.type = "click" ∧
    (drawAction sampleClick Ctx.fresh).ops
      = [Op.fill "blue" [{ x := 10, y := 20, radius := 5, startAngle := ⟨0⟩, endAngle := ⟨2⟩ }]] :=
  ⟨rfl, (action_overlay sampleClick Ctx.fresh).1 rfl⟩

theorem listerStep_taskName (v : ListerVars) (x : String) :
    (listerStep v x).taskName = some (taskOf x) := by
  obtain ⟨column, list, taskName⟩ := v
  by_cases h : taskName = some (taskOf x)
  · subst h
    cases list <;> simp [listerStep, split_zero]
  · have h' : ¬ some (taskOf x) = taskName := fun e => h e.symm
    simp [listerStep, split_zero, h']

theorem listerStep_headings (v : ListerVars) (x : String) :
    headings (listerStep v x).column
      = headings v.column ++ (if v.taskName = some (taskOf x) then [] else [some (taskOf x)]) := by
  obtain ⟨column, list, taskName⟩ := v
  by_cases h : taskName = some (taskOf x)
  · subst h
    cases list <;> simp [listerStep, split_zero, headings_appendToList]
  · have h' : ¬ some (taskOf x) = taskName := fun e => h e.symm
    simp only [listerStep, split_zero, ne_eq, h', not_false_eq_true, if_true, h, if_false,
      headings_appendToList]
    simp [headings, List.filterMap_append]

/-- C8. The lister starts a heading and a list when the task name of a file
name differs from that of the file name before it, and for the first file
name; what it adds to the column is, for each maximal run of consecutive file
names with the same task name, a heading and the list of the run. There are as
many headings as runs (which can be more than there are task names), and the
file names of the items, read in order, are the input. -/
theorem lister_renders_runs (column : List ColumnNode) (filenames : List String) :
    (∀ (v : ListerVars) (x : String),
      (listerStep v x).taskName = some (taskOf x) ∧
      headings (listerStep v x).column
        = headings v.column
            ++ (if v.taskName = some (taskOf x) then [] else [some (taskOf x)])) ∧
    listCallback column filenames = column ++ (runs filenames).flatMap renderRun ∧
    ((runs filenames).flatten = filenames ∧
      (∀ r ∈ runs filenames, r ≠ [] ∧ r.Chain' (fun x y => sameTask x y = true)) ∧
      (runs filenames).Chain'
        (fun a b => ∃ ha hb, sameTask (a.getLast ha) (b.head hb) = false)) ∧
    (headings (listCallback [] filenames)).length = (runs filenames).length ∧
    itemFilenames (listCallback [] filenames) = filenames ∧
    (∃ fs : List String, (headings (listCallback [] fs)).length ≠ (tasksOf fs).length) := by
  refine ⟨fun v x => ⟨listerStep_taskName v x, listerStep_headings v x⟩,
    listCallback_eq_runs column filenames,
    ⟨List.flatten_splitBy _ _, ?_, List.chain'_getLast_head_splitBy _ _⟩, ?_, ?_,
    ⟨["a_1", "b_1", "a_2"], by decide⟩⟩
  · intro r hr
    exact ⟨List.ne_nil_of_mem_splitBy _ hr, List.chain'_of_mem_splitBy hr⟩
  · rw [listCallback_eq_runs, List.nil_append, headings_render_runs, List.length_map]
  · rw [listCallback_eq_runs, List.nil_append, itemFilenames_render_runs]
    exact List.flatten_splitBy _ _

/-- Witness for C8: `a_1`, `a_2`, `b_1`, `a_3` make three
runs, each of them non-empty. -/
theorem lister_renders_runs_witness :
    ["b_1"] ∈ runs ["a_1", "a_2", "b_1", "a_3"] ∧
    (["b_1"] ≠ [] ∧ ["b_1"].Chain' (fun x y => sameTask x y = true)) ∧
    listCallback [] ["a_1", "a_2", "b_1", "a_3"]
      = [ColumnNode.h1 (some "a"),
         ColumnNode.ul [{ text := some "1", filename := "a_1", selected := false },
                        { text := some "2", filename := "a_2", selected := false }],
         ColumnNode.h1 (some "b"),
         ColumnNode.ul [{ text := some "1", filename := "b_1", selected := false }],
         ColumnNode.h1 (some "a"),
         ColumnNode.ul [{ text := some "3", filename := "a_3", selected := false }]] :=
  ⟨by decide,
    (lister_renders_runs [] ["a_1", "a_2", "b_1", "a_3"]).2.2.1.2.1 ["b_1"] (by decide),
    (lister_renders_runs [] ["a_1", "a_2", "b_1", "a_3"]).2.1.trans (by decide)⟩

/-- C2, as stated, fails: for `a_1`, `b_1`, `a_2` the lister renders three
headings (`a`, `b`, `a`), not one heading and one list for each of the two
groups. -/
theorem lister_groups_counterexample :
    listCallback [] ["a_1", "b_1", "a_2"]
      ≠ (groupsByTask ["a_1", "b_1", "a_2"]).flatMap renderGroup ∧
    headings (listCallback [] ["a_1", "b_1", "a_2"]) = [some "a", some "b", some "a"] ∧
    groupsByTask ["a_1", "b_1", "a_2"] = [("a", ["a_1", "a_2"]), ("b", ["b_1"])] := by
  decide

/-- C2, amended. When the file names of each task name stand next to one
another in the index, the lister adds to the column one heading and one list
per group of file names with the same task name (the part before the first
underscore): the headings in order of first encounter, each list with the file
names of its group in input order, each item keeping its file name as datum. -/
theorem lister_groups (column : List ColumnNode) (filenames : List String)
    (h : TasksContiguous filenames) :
    listCallback column filenames = column ++ (groupsByTask filenames).flatMap renderGroup := by
  rw [listCallback_eq_runs, render_groups_eq_runs filenames.length filenames (Nat.le_refl _) h]

/-- Witness for C2 as amended: `flight.A_1`, `flight.A_2`, `book.B_1` give the
heading `flight.A` with two items and the heading `book.B` with one. -/
theorem lister_groups_witness :
    TasksContiguous ["flight.A_1", "flight.A_2", "book.B_1"] ∧
    listCallback [] ["flight.A_1", "flight.A_2", "book.B_1"]
      = [ColumnNode.h1 (some "flight.A"),
         ColumnNode.ul [{ text := some "1", filename := "flight.A_1", selected := false },
                        { text := some "2", filename := "flight.A_2", selected := false }],
         ColumnNode.h1 (some "book.B"),
         ColumnNode.ul [{ text := some "1", filename := "book.B_1", selected := false }]] :=
  ⟨by decide,
    (lister_groups [] ["flight.A_1", "flight.A_2", "book.B_1"] (by decide)).trans (by decide)⟩

end MiniWob.Main
